import Mathlib

set_option linter.unusedVariables false
set_option linter.unnecessarySeqFocus false

/-!
Shallow embedding of the OHLC ingestion-buffering and backpressure subsystem
(src/services/data_sources/storage.py and src/services/data_sources/backpressure.py).

Modelling conventions:
- timestamps (datetime) and durations (timedelta) are integers, in seconds;
- Decimal price fields are integers (no claim involves price arithmetic);
- the Python dict interval_buffer is an insertion-ordered association list,
  matching Python dict semantics (update keeps position, new keys append);
- the SQLAlchemy writer is a parameter: a call either raises (Except.error)
  or returns the (success_count, failed_count, total) triple;
- calls to handle_storage_result are additionally recorded in an output trace
  (a list of the success booleans passed), so that reporting to the
  backpressure controller is observable in theorem statements;
- pause/resume callback invocations are recorded as events; the process exit
  performed by the fail-fast path (sys.exit) is outside a shallow embedding
  of state and is not modelled as a state change.
-/

/-- Candle record (types.py, class OHLCData). -/
structure OHLCData where
  symbol : String
  open_ : Int
  high : Int
  low : Int
  close : Int
  vwap : Int
  trades : Nat
  volume : Int
  interval_begin : Int
  interval : Nat
  deriving DecidableEq, Repr

/-- Buffer keys are (symbol, interval_begin) pairs. -/
abbrev BufferKey := String × Int

/-- The in-memory interval buffer: a Python dict modelled as an
insertion-ordered association list. -/
abbrev Buffer := List (BufferKey × OHLCData)

/-- Python dict assignment d[k] = v: overwrite in place when the key is
present (keeping its position), otherwise append at the end. -/
def dictInsert (k : BufferKey) (v : OHLCData) : Buffer → Buffer
  | [] => [(k, v)]
  | (k₀, v₀) :: rest =>
      if k₀ = k then (k, v) :: rest else (k₀, v₀) :: dictInsert k v rest

/-- Python dict lookup d.get(k). -/
def dictGet (k : BufferKey) : Buffer → Option OHLCData
  | [] => none
  | (k₀, v₀) :: rest => if k₀ = k then some v₀ else dictGet k rest

/-- Python del d[k]. -/
def dictErase (k : BufferKey) (b : Buffer) : Buffer :=
  b.filter (fun kv => decide (kv.1 ≠ k))

/-- Number of entries stored under a key (a Python dict always has at most
one; the invariant is proved, not assumed, for the association list). -/
def countKey (k : BufferKey) (b : Buffer) : Nat :=
  (b.filter (fun kv => decide (kv.1 = k))).length

/-- Duplicate-detection key (symbol, interval_begin, timeframe). -/
abbrev DupKey := String × Int × String

/-- Key used by DuplicateDetector.is_duplicate and mark_seen. -/
def dupKeyOf (o : OHLCData) : DupKey := (o.symbol, o.interval_begin, "15m")

/-- Python set.add. -/
def setAdd (k : DupKey) (s : List DupKey) : List DupKey :=
  if k ∈ s then s else k :: s

/-- Python set.discard. -/
def setDiscard (k : DupKey) (s : List DupKey) : List DupKey :=
  s.filter (fun x => decide (x ≠ k))

/-- backpressure.py, class DuplicateDetector. -/
structure DuplicateDetector where
  cache : List DupKey
  cache_order : List DupKey
  maxlen : Nat
  deriving DecidableEq, Repr

/-- DuplicateDetector.__init__(cache_size). -/
def DuplicateDetector.init (cache_size : Nat) : DuplicateDetector :=
  { cache := [], cache_order := [], maxlen := cache_size }

/-- DuplicateDetector.is_duplicate. -/
def DuplicateDetector.is_duplicate (d : DuplicateDetector) (o : OHLCData) : Bool :=
  decide (dupKeyOf o ∈ d.cache)

/-- DuplicateDetector.mark_seen: when the bounded deque is full, discard the
oldest key from the set; then add the new key to the set and append it to the
deque (the deque itself drops its leftmost element when over capacity). -/
def DuplicateDetector.mark_seen (d : DuplicateDetector) (o : OHLCData) : DuplicateDetector :=
  let key := dupKeyOf o
  let cache1 :=
    if d.cache_order.length = d.maxlen ∧ d.cache_order ≠ [] then
      setDiscard (d.cache_order.headD key) d.cache
    else d.cache
  let order1 := d.cache_order ++ [key]
  let order2 :=
    if d.maxlen < order1.length then order1.drop (order1.length - d.maxlen) else order1
  { cache := setAdd key cache1, cache_order := order2, maxlen := d.maxlen }

/-- backpressure.py, class StorageHealthMonitor. -/
structure StorageHealthMonitor where
  failure_threshold : Nat
  recovery_timeout : Int
  consecutive_failures : Nat
  last_success : Int
  is_healthy : Bool
  deriving DecidableEq, Repr

/-- StorageHealthMonitor.__init__(failure_threshold, recovery_timeout);
last_success starts at the construction time. -/
def StorageHealthMonitor.init (failure_threshold : Nat) (recovery_timeout : Int)
    (now : Int) : StorageHealthMonitor :=
  { failure_threshold := failure_threshold, recovery_timeout := recovery_timeout,
    consecutive_failures := 0, last_success := now, is_healthy := true }

/-- StorageHealthMonitor.record_success (now is the clock reading). -/
def StorageHealthMonitor.record_success (m : StorageHealthMonitor) (now : Int) :
    StorageHealthMonitor :=
  { m with consecutive_failures := 0, last_success := now, is_healthy := true }

/-- StorageHealthMonitor.record_failure. -/
def StorageHealthMonitor.record_failure (m : StorageHealthMonitor) :
    StorageHealthMonitor :=
  let c := m.consecutive_failures + 1
  { m with consecutive_failures := c,
           is_healthy := if m.failure_threshold ≤ c then false else m.is_healthy }

/-- StorageHealthMonitor.should_fail_fast (now is the clock reading): the
elapsed time since the last success must strictly exceed the recovery
timeout, and the monitor must be unhealthy. -/
def StorageHealthMonitor.should_fail_fast (m : StorageHealthMonitor) (now : Int) : Bool :=
  !m.is_healthy && decide (m.recovery_timeout < now - m.last_success)

/-- Callback invocations made by the backpressure controller. -/
inductive CallbackEvent
  | pauseCallback
  | resumeCallback
  deriving DecidableEq, Repr

/-- backpressure.py, class SimpleBackpressureController. The two optional
callbacks are modelled by presence flags; invoking one is recorded as an
event (the Python code catches and logs callback exceptions, so an
invocation never alters controller state). -/
structure SimpleBackpressureController where
  duplicate_detector : DuplicateDetector
  health_monitor : StorageHealthMonitor
  has_pause_callback : Bool
  has_resume_callback : Bool
  is_paused : Bool
  duplicates_dropped : Nat
  storage_failures : Nat
  pause_events : Nat
  total_processed : Nat
  deriving DecidableEq, Repr

/-- SimpleBackpressureController.__init__ with the default detector and
monitor configuration (cache_size 1000, failure_threshold 3,
recovery_timeout 300). -/
def SimpleBackpressureController.init (has_pause_callback has_resume_callback : Bool)
    (now : Int) : SimpleBackpressureController :=
  { duplicate_detector := DuplicateDetector.init 1000,
    health_monitor := StorageHealthMonitor.init 3 300 now,
    has_pause_callback := has_pause_callback,
    has_resume_callback := has_resume_callback,
    is_paused := false,
    duplicates_dropped := 0, storage_failures := 0,
    pause_events := 0, total_processed := 0 }

/-- SimpleBackpressureController.should_accept_data: always counts the
record as processed; rejects exactly the duplicates, marking non-duplicates
as seen. -/
def SimpleBackpressureController.should_accept_data
    (c : SimpleBackpressureController) (o : OHLCData) :
    SimpleBackpressureController × Bool :=
  let c1 := { c with total_processed := c.total_processed + 1 }
  if c.duplicate_detector.is_duplicate o then
    ({ c1 with duplicates_dropped := c1.duplicates_dropped + 1 }, false)
  else
    ({ c1 with duplicate_detector := c1.duplicate_detector.mark_seen o }, true)

/-- SimpleBackpressureController._pause_ingestion: no-op when already
paused; otherwise sets the paused flag, counts a pause event and invokes the
pause callback when one is set. -/
def SimpleBackpressureController.pause_ingestion
    (c : SimpleBackpressureController) :
    SimpleBackpressureController × List CallbackEvent :=
  if c.is_paused then (c, [])
  else
    ({ c with is_paused := true, pause_events := c.pause_events + 1 },
     if c.has_pause_callback then [CallbackEvent.pauseCallback] else [])

/-- SimpleBackpressureController._resume_ingestion: no-op when not paused;
otherwise clears the paused flag and invokes the resume callback when one is
set. -/
def SimpleBackpressureController.resume_ingestion
    (c : SimpleBackpressureController) :
    SimpleBackpressureController × List CallbackEvent :=
  if !c.is_paused then (c, [])
  else
    ({ c with is_paused := false },
     if c.has_resume_callback then [CallbackEvent.resumeCallback] else [])

/-- SimpleBackpressureController.handle_storage_result. The fail-fast
branch terminates the process in Python (sys.exit); process termination has
no state-level content here, so the state returned is the one at that
point. -/
def SimpleBackpressureController.handle_storage_result
    (c : SimpleBackpressureController) (now : Int) (success : Bool) :
    SimpleBackpressureController × List CallbackEvent :=
  if success then
    let c1 := { c with health_monitor := c.health_monitor.record_success now }
    if c1.is_paused then c1.resume_ingestion else (c1, [])
  else
    let c1 := { c with storage_failures := c.storage_failures + 1,
                       health_monitor := c.health_monitor.record_failure }
    if !c1.health_monitor.is_healthy && !c1.is_paused then c1.pause_ingestion
    else (c1, [])

/-- Outcome of KrakenToTimescaleTransformer.transform on one record: a model
instance, None (unsupported symbol), or a raised exception. -/
inductive TransformResult
  | model
  | noModel
  | raised
  deriving DecidableEq, Repr

/-- storage.py, OHLCStorage.store_batch, parameterised by the transform
behaviour and by whether the session commit succeeds. Per-record transform
exceptions and None results both count as failed without aborting the batch;
a commit failure rolls the whole batch back, forcing success_count to 0 and
failed_count to the batch length. Returns (success_count, failed_count,
total). -/
def OHLCStorage.store_batch (transform : OHLCData → TransformResult)
    (commitOk : Bool) (ohlc_data_list : List OHLCData) : Nat × Nat × Nat :=
  if ohlc_data_list.isEmpty then (0, 0, 0)
  else
    let success_count := ohlc_data_list.countP (fun o => decide (transform o = TransformResult.model))
    let failed_count := ohlc_data_list.length - success_count
    if commitOk then (success_count, failed_count, ohlc_data_list.length)
    else (0, ohlc_data_list.length, ohlc_data_list.length)

/-- One call to the underlying bulk writer: it either raises or returns the
(success_count, failed_count, total) triple. -/
abbrev StoreOutcome := Except Unit (Nat × Nat × Nat)

/-- The behaviour of self.storage.store_batch as seen from the integrated
layer. -/
abbrev StoreFn := List OHLCData → StoreOutcome

/-- storage.py, class IntegratedOHLCStorage (buffer plus counters plus the
composed backpressure controller). -/
structure IntegratedOHLCStorage where
  storage_delay : Int
  interval_buffer : Buffer
  backpressure : SimpleBackpressureController
  total_accepted : Nat
  total_rejected : Nat
  total_buffered : Nat
  total_flushed : Nat
  deriving DecidableEq, Repr

/-- The aged portion of the buffer: entries whose value has age at least
storage_delay at time now (the code compares via the interval_begin of the
buffered value). -/
def IntegratedOHLCStorage.agedEntries (s : IntegratedOHLCStorage) (now : Int) :
    List (BufferKey × OHLCData) :=
  s.interval_buffer.filter (fun kv => decide (s.storage_delay ≤ now - kv.2.interval_begin))

/-- IntegratedOHLCStorage._flush_old_intervals. Returns the new state and
the trace of success booleans passed to handle_storage_result. On a raising
write the buffer is untouched; on a returning write all aged keys are
deleted and total_flushed grows by the reported success_count. -/
def IntegratedOHLCStorage.flush_old_intervals (s : IntegratedOHLCStorage)
    (storeFn : StoreFn) (now : Int) : IntegratedOHLCStorage × List Bool :=
  if s.interval_buffer.isEmpty then (s, [])
  else
    let aged := s.agedEntries now
    let intervals_to_flush := aged.map (fun kv => kv.2)
    let keys_to_remove := aged.map (fun kv => kv.1)
    if intervals_to_flush.isEmpty then (s, [])
    else
      match storeFn intervals_to_flush with
      | Except.ok (success_count, failed_count, _) =>
          ({ s with total_flushed := s.total_flushed + success_count,
                    interval_buffer :=
                      keys_to_remove.foldl (fun b k => dictErase k b) s.interval_buffer,
                    backpressure :=
                      (s.backpressure.handle_storage_result now (failed_count == 0)).1 },
           [failed_count == 0])
      | Except.error _ =>
          ({ s with backpressure := (s.backpressure.handle_storage_result now false).1 },
           [false])

/-- Accumulator of the per-record loop inside IntegratedOHLCStorage.store_batch. -/
structure BatchLoopState where
  backpressure : SimpleBackpressureController
  interval_buffer : Buffer
  total_accepted : Nat
  total_rejected : Nat
  total_buffered : Nat
  immediate_store : List OHLCData
  buffered_count : Nat
  rejected_count : Nat
  deriving DecidableEq, Repr

/-- One iteration of the for-loop in IntegratedOHLCStorage.store_batch:
recent records are written into the buffer unconditionally; mature records
go through should_accept_data and, when accepted, are collected for
immediate storage. -/
def processRecord (storage_delay now : Int) (a : BatchLoopState) (ohlc : OHLCData) :
    BatchLoopState :=
  if now - ohlc.interval_begin < storage_delay then
    { a with interval_buffer := dictInsert (ohlc.symbol, ohlc.interval_begin) ohlc a.interval_buffer,
             buffered_count := a.buffered_count + 1,
             total_buffered := a.total_buffered + 1,
             total_accepted := a.total_accepted + 1 }
  else
    let res := a.backpressure.should_accept_data ohlc
    if res.2 then
      { a with backpressure := res.1,
               immediate_store := a.immediate_store ++ [ohlc],
               total_accepted := a.total_accepted + 1 }
    else
      { a with backpressure := res.1,
               rejected_count := a.rejected_count + 1,
               total_rejected := a.total_rejected + 1 }

/-- The loop starts from the state left by the initial flush, with the local
counters and the immediate-store list empty. -/
def initialLoopState (s1 : IntegratedOHLCStorage) : BatchLoopState :=
  { backpressure := s1.backpressure, interval_buffer := s1.interval_buffer,
    total_accepted := s1.total_accepted, total_rejected := s1.total_rejected,
    total_buffered := s1.total_buffered,
    immediate_store := [], buffered_count := 0, rejected_count := 0 }

/-- The per-record loop of IntegratedOHLCStorage.store_batch, run after the
initial flush. -/
def IntegratedOHLCStorage.batchLoop (s : IntegratedOHLCStorage)
    (storeFn : StoreFn) (now : Int) (l : List OHLCData) : BatchLoopState :=
  let s1 := (s.flush_old_intervals storeFn now).1
  l.foldl (processRecord s1.storage_delay now) (initialLoopState s1)

/-- Reassemble an IntegratedOHLCStorage from the loop accumulator. -/
def assembleState (delay : Int) (flushed : Nat) (a : BatchLoopState)
    (bp : SimpleBackpressureController) (buf : Buffer) : IntegratedOHLCStorage :=
  { storage_delay := delay, interval_buffer := buf, backpressure := bp,
    total_accepted := a.total_accepted, total_rejected := a.total_rejected,
    total_buffered := a.total_buffered, total_flushed := flushed }

/-- IntegratedOHLCStorage.store_batch. Returns the new state, the trace of
success booleans reported to handle_storage_result, and the
(total_processed, rejected_count, total_input) result triple. An empty input
returns immediately, before the flush. -/
def IntegratedOHLCStorage.store_batch (s : IntegratedOHLCStorage)
    (storeFn : StoreFn) (now : Int) (ohlc_data_list : List OHLCData) :
    IntegratedOHLCStorage × List Bool × (Nat × Nat × Nat) :=
  if ohlc_data_list.isEmpty then (s, [], (0, 0, 0))
  else
    let fl := s.flush_old_intervals storeFn now
    let s1 := fl.1
    let a := s.batchLoop storeFn now ohlc_data_list
    if a.immediate_store.isEmpty then
      (assembleState s1.storage_delay s1.total_flushed a a.backpressure a.interval_buffer,
       fl.2,
       (a.buffered_count, a.rejected_count, ohlc_data_list.length))
    else
      match storeFn a.immediate_store with
      | Except.ok (success_count, failed_count, _) =>
          (assembleState s1.storage_delay s1.total_flushed a
             (a.backpressure.handle_storage_result now (failed_count == 0)).1
             a.interval_buffer,
           fl.2 ++ [failed_count == 0],
           (success_count + a.buffered_count, a.rejected_count + failed_count,
            ohlc_data_list.length))
      | Except.error _ =>
          (assembleState s1.storage_delay s1.total_flushed a
             (a.backpressure.handle_storage_result now false).1
             a.interval_buffer,
           fl.2 ++ [false],
           (0, a.rejected_count + a.immediate_store.length + a.buffered_count,
            ohlc_data_list.length))

/-- IntegratedOHLCStorage.force_flush_all: write the whole buffer (all ages);
on a returning write delete every key and return the reported success count,
on a raising write keep the buffer and return 0. -/
def IntegratedOHLCStorage.force_flush_all (s : IntegratedOHLCStorage)
    (storeFn : StoreFn) (now : Int) : IntegratedOHLCStorage × List Bool × Nat :=
  if s.interval_buffer.isEmpty then (s, [], 0)
  else
    let intervals_to_flush := s.interval_buffer.map (fun kv => kv.2)
    let keys_to_remove := s.interval_buffer.map (fun kv => kv.1)
    match storeFn intervals_to_flush with
    | Except.ok (success_count, failed_count, _) =>
        ({ s with total_flushed := s.total_flushed + success_count,
                  interval_buffer :=
                    keys_to_remove.foldl (fun b k => dictErase k b) s.interval_buffer,
                  backpressure :=
                    (s.backpressure.handle_storage_result now (failed_count == 0)).1 },
         [failed_count == 0], success_count)
    | Except.error _ =>
        ({ s with backpressure := (s.backpressure.handle_storage_result now false).1 },
         [false], 0)

/-- IntegratedOHLCStorage.store_single: wraps store_batch on a singleton and
reports whether the returned processed count is positive. -/
def IntegratedOHLCStorage.store_single (s : IntegratedOHLCStorage)
    (storeFn : StoreFn) (now : Int) (ohlc_data : OHLCData) :
    IntegratedOHLCStorage × List Bool × Bool :=
  let r := s.store_batch storeFn now [ohlc_data]
  (r.1, r.2.1, decide (0 < r.2.2.1))

/-- Number of records of a batch that are recent (age strictly below the
delay) at time now. -/
def countRecent (delay now : Int) (l : List OHLCData) : Nat :=
  (l.filter (fun o => decide (now - o.interval_begin < delay))).length

/-- Events driving the health monitor in a test scenario. -/
inductive MonitorEvent
  | success (t : Int)
  | failure
  deriving DecidableEq, Repr

/-- Apply one monitor event. -/
def StorageHealthMonitor.applyEvent (m : StorageHealthMonitor) :
    MonitorEvent → StorageHealthMonitor
  | MonitorEvent.success t => m.record_success t
  | MonitorEvent.failure => m.record_failure

/-- Run the health monitor over a sequence of events. -/
def StorageHealthMonitor.run (m : StorageHealthMonitor) (evs : List MonitorEvent) :
    StorageHealthMonitor :=
  evs.foldl StorageHealthMonitor.applyEvent m

/-! Lemmas about the Python-dict model. -/

theorem dictGet_dictInsert_self (k : BufferKey) (v : OHLCData) (b : Buffer) :
    dictGet k (dictInsert k v b) = some v := by
  induction b with
  | nil => simp [dictInsert, dictGet]
  | cons kv rest ih =>
      obtain ⟨k₀, v₀⟩ := kv
      by_cases h : k₀ = k
      · simp [dictInsert, dictGet, h]
      · simp [dictInsert, dictGet, h, ih]

theorem dictGet_dictInsert_ne (k k₁ : BufferKey) (v : OHLCData) (b : Buffer)
    (h : k ≠ k₁) : dictGet k (dictInsert k₁ v b) = dictGet k b := by
  induction b with
  | nil => simp [dictInsert, dictGet, Ne.symm h]
  | cons kv rest ih =>
      obtain ⟨k₀, v₀⟩ := kv
      by_cases h₀ : k₀ = k₁
      · simp [dictInsert, dictGet, h₀, Ne.symm h]
      · by_cases h₁ : k₀ = k
        · simp [dictInsert, dictGet, h₀, h₁, h]
        · simp [dictInsert, dictGet, h₀, h₁, ih]

theorem dictGet_dictInsert_present (k k₁ : BufferKey) (v : OHLCData) (b : Buffer)
    (h : dictGet k b ≠ none) : dictGet k (dictInsert k₁ v b) ≠ none := by
  by_cases hk : k = k₁
  · subst hk; simp [dictGet_dictInsert_self]
  · rw [dictGet_dictInsert_ne k k₁ v b hk]; exact h

theorem dictGet_some_mem (k : BufferKey) (v : OHLCData) (b : Buffer)
    (h : dictGet k b = some v) : (k, v) ∈ b := by
  induction b with
  | nil => simp [dictGet] at h
  | cons kv rest ih =>
      obtain ⟨k₀, v₀⟩ := kv
      by_cases h₀ : k₀ = k
      · simp [dictGet, h₀] at h
        subst h₀; subst h; exact List.mem_cons_self _ _
      · simp [dictGet, h₀] at h
        exact List.mem_cons_of_mem _ (ih h)

theorem dictGet_dictErase_self (k : BufferKey) (b : Buffer) :
    dictGet k (dictErase k b) = none := by
  induction b with
  | nil => simp [dictErase, dictGet]
  | cons kv rest ih =>
      obtain ⟨k₀, v₀⟩ := kv
      by_cases h₀ : k₀ = k
      · simpa [dictErase, h₀] using ih
      · simpa [dictErase, dictGet, h₀] using ih

theorem dictGet_none_dictErase (k k₁ : BufferKey) (b : Buffer)
    (h : dictGet k b = none) : dictGet k (dictErase k₁ b) = none := by
  induction b with
  | nil => simp [dictErase, dictGet]
  | cons kv rest ih =>
      obtain ⟨k₀, v₀⟩ := kv
      by_cases h₀ : k₀ = k
      · simp [dictGet, h₀] at h
      · simp [dictGet, h₀] at h
        by_cases h₁ : k₀ = k₁
        · simpa [dictErase, h₁] using ih h
        · simpa [dictErase, dictGet, h₀, h₁] using ih h

theorem dictGet_none_foldl_dictErase (ks : List BufferKey) :
    ∀ b : Buffer, ∀ k : BufferKey, dictGet k b = none →
      dictGet k (ks.foldl (fun b k => dictErase k b) b) = none := by
  induction ks with
  | nil => intro b k h; simpa using h
  | cons k₁ rest ih =>
      intro b k h
      simp only [List.foldl_cons]
      exact ih _ _ (dictGet_none_dictErase k k₁ b h)

theorem dictGet_foldl_dictErase_mem (ks : List BufferKey) :
    ∀ b : Buffer, ∀ k : BufferKey, k ∈ ks →
      dictGet k (ks.foldl (fun b k => dictErase k b) b) = none := by
  induction ks with
  | nil => intro b k h; simp at h
  | cons k₁ rest ih =>
      intro b k h
      simp only [List.foldl_cons]
      rcases List.mem_cons.1 h with h | h
      · subst h
        exact dictGet_none_foldl_dictErase rest _ k (dictGet_dictErase_self k b)
      · exact ih _ _ h

theorem countKey_dictInsert_self (k : BufferKey) (v : OHLCData) (b : Buffer) :
    countKey k (dictInsert k v b) = max 1 (countKey k b) := by
  induction b with
  | nil => simp [countKey, dictInsert]
  | cons kv rest ih =>
      obtain ⟨k₀, v₀⟩ := kv
      by_cases h₀ : k₀ = k
      · simp [countKey, dictInsert, h₀]
      · simp only [dictInsert, h₀, if_false]
        simp [countKey, h₀] at ih ⊢
        exact ih

theorem countKey_cons (k k₀ : BufferKey) (v₀ : OHLCData) (rest : Buffer) :
    countKey k ((k₀, v₀) :: rest) = (if k₀ = k then 1 else 0) + countKey k rest := by
  by_cases h : k₀ = k <;> simp [countKey, h, Nat.add_comm]

theorem countKey_dictErase_le (k k₁ : BufferKey) (b : Buffer) :
    countKey k (dictErase k₁ b) ≤ countKey k b := by
  induction b with
  | nil => simp [countKey, dictErase]
  | cons kv rest ih =>
      obtain ⟨k₀, v₀⟩ := kv
      by_cases h₁ : k₀ = k₁
      · have he : dictErase k₁ ((k₀, v₀) :: rest) = dictErase k₁ rest := by
          simp [dictErase, h₁]
        rw [he, countKey_cons]
        exact le_trans ih (Nat.le_add_left _ _)
      · have he : dictErase k₁ ((k₀, v₀) :: rest) = (k₀, v₀) :: dictErase k₁ rest := by
          simp [dictErase, h₁]
        rw [he, countKey_cons, countKey_cons]
        exact Nat.add_le_add_left ih _

theorem countKey_foldl_dictErase_le (ks : List BufferKey) :
    ∀ b : Buffer, ∀ k : BufferKey,
      countKey k (ks.foldl (fun b k => dictErase k b) b) ≤ countKey k b := by
  induction ks with
  | nil => intro b k; simp
  | cons k₁ rest ih =>
      intro b k
      simp only [List.foldl_cons]
      exact le_trans (ih _ _) (countKey_dictErase_le k k₁ b)

/-! Lemmas about the per-record loop of IntegratedOHLCStorage.store_batch. -/

theorem processRecord_buffered_count (delay now : Int) (a : BatchLoopState) (o : OHLCData) :
    (processRecord delay now a o).buffered_count
      = a.buffered_count + (if now - o.interval_begin < delay then 1 else 0) := by
  unfold processRecord
  by_cases ho : now - o.interval_begin < delay
  · simp [ho]
  · simp only [ho, if_false]
    split <;> rfl

theorem processRecord_rejected_buffer (delay now : Int) (a : BatchLoopState) (o : OHLCData) :
    (now - o.interval_begin < delay →
      (processRecord delay now a o).interval_buffer
        = dictInsert (o.symbol, o.interval_begin) o a.interval_buffer ∧
      (processRecord delay now a o).backpressure = a.backpressure ∧
      (processRecord delay now a o).rejected_count = a.rejected_count ∧
      (processRecord delay now a o).immediate_store = a.immediate_store) ∧
    (¬ now - o.interval_begin < delay →
      (processRecord delay now a o).interval_buffer = a.interval_buffer ∧
      (processRecord delay now a o).buffered_count = a.buffered_count) := by
  constructor
  · intro ho; simp [processRecord, ho]
  · intro ho
    unfold processRecord
    simp only [ho, if_false]
    constructor <;> (split <;> rfl)

theorem loop_all_recent (delay now : Int) (l : List OHLCData) :
    ∀ a : BatchLoopState, (∀ o ∈ l, now - o.interval_begin < delay) →
      (l.foldl (processRecord delay now) a).immediate_store = a.immediate_store ∧
      (l.foldl (processRecord delay now) a).backpressure = a.backpressure ∧
      (l.foldl (processRecord delay now) a).rejected_count = a.rejected_count ∧
      (l.foldl (processRecord delay now) a).buffered_count = a.buffered_count + l.length ∧
      (l.foldl (processRecord delay now) a).interval_buffer =
        l.foldl (fun b o => dictInsert (o.symbol, o.interval_begin) o b) a.interval_buffer := by
  induction l with
  | nil => intro a h; simp
  | cons o rest ih =>
      intro a h
      have ho : now - o.interval_begin < delay := h o (List.mem_cons_self o rest)
      have hrest : ∀ x ∈ rest, now - x.interval_begin < delay :=
        fun x hx => h x (List.mem_cons_of_mem o hx)
      obtain ⟨h1, h2, h3, h4, h5⟩ := ih (processRecord delay now a o) hrest
      simp only [List.foldl_cons]
      refine ⟨?_, ?_, ?_, ?_, ?_⟩
      · rw [h1]; simp [processRecord, ho]
      · rw [h2]; simp [processRecord, ho]
      · rw [h3]; simp [processRecord, ho]
      · rw [h4, processRecord_buffered_count]
        simp [ho, List.length_cons]
        omega
      · rw [h5]; simp [processRecord, ho]

theorem loop_buffered_count (delay now : Int) (l : List OHLCData) :
    ∀ a : BatchLoopState,
      (l.foldl (processRecord delay now) a).buffered_count
        = a.buffered_count + countRecent delay now l := by
  induction l with
  | nil => intro a; simp [countRecent]
  | cons o rest ih =>
      intro a
      simp only [List.foldl_cons]
      rw [ih, processRecord_buffered_count]
      by_cases ho : now - o.interval_begin < delay <;>
        simp [countRecent, ho] <;> omega

theorem loop_preserves_present (delay now : Int) (l : List OHLCData) :
    ∀ (a : BatchLoopState) (k : BufferKey), dictGet k a.interval_buffer ≠ none →
      dictGet k (l.foldl (processRecord delay now) a).interval_buffer ≠ none := by
  induction l with
  | nil => intro a k h; simpa using h
  | cons o rest ih =>
      intro a k h
      simp only [List.foldl_cons]
      refine ih _ _ ?_
      by_cases ho : now - o.interval_begin < delay
      · rw [((processRecord_rejected_buffer delay now a o).1 ho).1]
        exact dictGet_dictInsert_present _ _ _ _ h
      · rw [((processRecord_rejected_buffer delay now a o).2 ho).1]
        exact h

theorem loop_recent_present (delay now : Int) (l : List OHLCData) :
    ∀ a : BatchLoopState, ∀ o ∈ l, now - o.interval_begin < delay →
      dictGet (o.symbol, o.interval_begin)
        (l.foldl (processRecord delay now) a).interval_buffer ≠ none := by
  induction l with
  | nil => intro a o h; simp at h
  | cons x rest ih =>
      intro a o ho hrec
      rcases List.mem_cons.1 ho with h | h
      · subst h
        simp only [List.foldl_cons]
        refine loop_preserves_present delay now rest _ _ ?_
        rw [((processRecord_rejected_buffer delay now a o).1 hrec).1]
        simp [dictGet_dictInsert_self]
      · simp only [List.foldl_cons]
        exact ih _ o h hrec

theorem loop_absent (delay now : Int) (l : List OHLCData) :
    ∀ (a : BatchLoopState) (k : BufferKey), dictGet k a.interval_buffer = none →
      (∀ o ∈ l, (o.symbol, o.interval_begin) = k → ¬ now - o.interval_begin < delay) →
      dictGet k (l.foldl (processRecord delay now) a).interval_buffer = none := by
  induction l with
  | nil => intro a k h _; simpa using h
  | cons o rest ih =>
      intro a k h hnone
      simp only [List.foldl_cons]
      refine ih _ _ ?_ (fun x hx => hnone x (List.mem_cons_of_mem o hx))
      by_cases ho : now - o.interval_begin < delay
      · rw [((processRecord_rejected_buffer delay now a o).1 ho).1]
        have hk : (o.symbol, o.interval_begin) ≠ k := by
          intro he
          exact hnone o (List.mem_cons_self o rest) he ho
        rw [dictGet_dictInsert_ne k _ o _ (Ne.symm hk)]
        exact h
      · rw [((processRecord_rejected_buffer delay now a o).2 ho).1]
        exact h

/-! Lemmas about the flush step. -/

theorem flush_storage_delay (s : IntegratedOHLCStorage) (storeFn : StoreFn) (now : Int) :
    (s.flush_old_intervals storeFn now).1.storage_delay = s.storage_delay := by
  unfold IntegratedOHLCStorage.flush_old_intervals
  split
  · rfl
  · dsimp only
    split
    · rfl
    · split <;> rfl

theorem flush_empty_buffer (s : IntegratedOHLCStorage) (storeFn : StoreFn) (now : Int)
    (h : s.interval_buffer = []) : s.flush_old_intervals storeFn now = (s, []) := by
  unfold IntegratedOHLCStorage.flush_old_intervals
  simp [h]

/-! Lemmas about the health monitor. -/

theorem record_failure_fields (m : StorageHealthMonitor) :
    (m.record_failure).failure_threshold = m.failure_threshold ∧
    (m.record_failure).consecutive_failures = m.consecutive_failures + 1 := by
  constructor <;> rfl

theorem run_failure_threshold (evs : List MonitorEvent) :
    ∀ m : StorageHealthMonitor, (m.run evs).failure_threshold = m.failure_threshold := by
  induction evs with
  | nil => intro m; rfl
  | cons e rest ih =>
      intro m
      simp only [StorageHealthMonitor.run, List.foldl_cons] at ih ⊢
      rw [ih]
      cases e <;> rfl

theorem replicate_failures_unhealthy :
    ∀ (k : Nat) (m : StorageHealthMonitor), 0 < k →
      m.failure_threshold ≤ m.consecutive_failures + k →
      (m.run (List.replicate k MonitorEvent.failure)).is_healthy = false := by
  intro k
  induction k with
  | zero => intro m h; omega
  | succ k ih =>
      intro m hpos hth
      rcases Nat.eq_zero_or_pos k with hk | hk
      · subst hk
        have hle : m.failure_threshold ≤ m.consecutive_failures + 1 := by omega
        simp [StorageHealthMonitor.run, StorageHealthMonitor.applyEvent,
              StorageHealthMonitor.record_failure, hle]
      · rw [List.replicate_succ]
        simp only [StorageHealthMonitor.run, List.foldl_cons] at ih ⊢
        refine ih m.record_failure hk ?_
        have h1 := record_failure_fields m
        rw [h1.1, h1.2]
        omega

/-- Claim C7: with failure_threshold 3 and recovery_timeout 300, any event
history ending in at least 3 consecutive record_failure calls leaves the
monitor unhealthy; should_fail_fast is true exactly when the monitor is
unhealthy and the time since the last success strictly exceeds 300 seconds;
and record_success resets the failure count, refreshes last_success and
restores the healthy flag. -/
theorem C7_health_monitor_circuit (t0 now t : Int) (evs : List MonitorEvent) (k : Nat)
    (m : StorageHealthMonitor) (hk : 3 ≤ k) (hrt : m.recovery_timeout = 300) :
    (((StorageHealthMonitor.init 3 300 t0).run evs).run
        (List.replicate k MonitorEvent.failure)).is_healthy = false ∧
    (m.should_fail_fast now = true ↔ m.is_healthy = false ∧ 300 < now - m.last_success) ∧
    (m.record_success t).consecutive_failures = 0 ∧
    (m.record_success t).last_success = t ∧
    (m.record_success t).is_healthy = true := by
  refine ⟨?_, ?_, rfl, rfl, rfl⟩
  · refine replicate_failures_unhealthy k _ (by omega) ?_
    rw [run_failure_threshold]
    have : (StorageHealthMonitor.init 3 300 t0).failure_threshold = 3 := rfl
    rw [this]
    omega
  · unfold StorageHealthMonitor.should_fail_fast
    rw [hrt]
    constructor
    · intro h
      simp only [Bool.and_eq_true, Bool.not_eq_true', decide_eq_true_eq] at h
      exact ⟨h.1, h.2⟩
    · intro ⟨h1, h2⟩
      simp [h1, h2]

/-- Witness for C7 at a concrete run: three failures from a fresh monitor,
queried 1000 seconds after the initial success time. -/
theorem C7_health_monitor_circuit_witness :
    (((StorageHealthMonitor.init 3 300 0).run []).run
        (List.replicate 3 MonitorEvent.failure)).is_healthy = false ∧
    ((StorageHealthMonitor.init 3 300 0).run
        (List.replicate 3 MonitorEvent.failure)).should_fail_fast 1000 = true := by
  have h := C7_health_monitor_circuit 0 1000 0 [] 3
    ((StorageHealthMonitor.init 3 300 0).run (List.replicate 3 MonitorEvent.failure))
    (by omega) (by decide)
  refine ⟨h.1, ?_⟩
  refine h.2.1.2 ⟨?_, ?_⟩
  · exact h.1
  · decide

/-- Claim C9: the pause transition is a no-op (state unchanged, no callback
invoked) when already paused, and the resume transition is a no-op when not
paused. -/
theorem C9_pause_resume_idempotent (c : SimpleBackpressureController) :
    (c.is_paused = true → c.pause_ingestion = (c, [])) ∧
    (c.is_paused = false → c.resume_ingestion = (c, [])) := by
  constructor
  · intro h
    simp [SimpleBackpressureController.pause_ingestion, h]
  · intro h
    simp [SimpleBackpressureController.resume_ingestion, h]

/-- Witness for C9: a paused controller is unchanged by pause, an unpaused
one by resume, with no callback events in either case. -/
theorem C9_pause_resume_idempotent_witness :
    ({ SimpleBackpressureController.init true true 0 with
        is_paused := true }).pause_ingestion
      = ({ SimpleBackpressureController.init true true 0 with is_paused := true }, []) ∧
    (SimpleBackpressureController.init true true 0).resume_ingestion
      = (SimpleBackpressureController.init true true 0, []) := by
  constructor
  · exact (C9_pause_resume_idempotent _).1 rfl
  · exact (C9_pause_resume_idempotent _).2 rfl

/-- Claim C6: should_accept_data returns false exactly when the identity key
is already in the duplicate detector, and then increments the duplicate
counter; otherwise it marks the key seen, leaves the duplicate counter alone
and returns true. Universality over the controller state covers every
storage-health and pause state. -/
theorem C6_should_accept_data_admission (c : SimpleBackpressureController) (o : OHLCData) :
    ((c.should_accept_data o).2 = false ↔ dupKeyOf o ∈ c.duplicate_detector.cache) ∧
    (dupKeyOf o ∈ c.duplicate_detector.cache →
      (c.should_accept_data o).1.duplicates_dropped = c.duplicates_dropped + 1) ∧
    (dupKeyOf o ∉ c.duplicate_detector.cache →
      (c.should_accept_data o).2 = true ∧
      (c.should_accept_data o).1.duplicate_detector = c.duplicate_detector.mark_seen o ∧
      (c.should_accept_data o).1.duplicates_dropped = c.duplicates_dropped) := by
  by_cases h : dupKeyOf o ∈ c.duplicate_detector.cache
  · refine ⟨?_, fun _ => ?_, fun hn => absurd h hn⟩ <;>
      simp [SimpleBackpressureController.should_accept_data,
            DuplicateDetector.is_duplicate, h]
  · refine ⟨?_, fun hm => absurd hm h, fun _ => ?_⟩ <;>
      simp [SimpleBackpressureController.should_accept_data,
            DuplicateDetector.is_duplicate, h]

/-- Witness for C6: a fresh controller accepts a record, and the same
controller with the key already cached rejects it and counts a duplicate. -/
theorem C6_should_accept_data_admission_witness :
    (((SimpleBackpressureController.init false false 0).should_accept_data
        { symbol := "BTC/USD", open_ := 1, high := 2, low := 1, close := 1, vwap := 1,
          trades := 1, volume := 1, interval_begin := 0, interval := 15 }).2 = true) ∧
    ((({ SimpleBackpressureController.init false false 0 with
          duplicate_detector := { cache := [("BTC/USD", 0, "15m")],
                                  cache_order := [("BTC/USD", 0, "15m")],
                                  maxlen := 1000 } }).should_accept_data
        { symbol := "BTC/USD", open_ := 1, high := 2, low := 1, close := 1, vwap := 1,
          trades := 1, volume := 1, interval_begin := 0, interval := 15 }).1.duplicates_dropped = 1) := by
  constructor
  · exact ((C6_should_accept_data_admission _ _).2.2
      (by simp [dupKeyOf, SimpleBackpressureController.init, DuplicateDetector.init])).1
  · exact (C6_should_accept_data_admission _ _).2.1 (by simp [dupKeyOf])

theorem should_accept_total_processed (c : SimpleBackpressureController) (o : OHLCData) :
    (c.should_accept_data o).1.total_processed = c.total_processed + 1 := by
  unfold SimpleBackpressureController.should_accept_data
  split <;> rfl

/-- Claim C5: a record whose age equals storage_delay exactly takes the
mature path (buffer and buffered counter untouched, the backpressure filter
is consulted, and the record is either collected for immediate storage or
rejected), while a record with age strictly below storage_delay is buffered
at its identity key without touching the backpressure controller at all. -/
theorem C5_boundary_routing (storage_delay now : Int) (a : BatchLoopState) (o : OHLCData) :
    (now - o.interval_begin = storage_delay →
      (processRecord storage_delay now a o).interval_buffer = a.interval_buffer ∧
      (processRecord storage_delay now a o).buffered_count = a.buffered_count ∧
      (processRecord storage_delay now a o).backpressure.total_processed
        = a.backpressure.total_processed + 1 ∧
      ((processRecord storage_delay now a o).immediate_store = a.immediate_store ++ [o] ∨
       (processRecord storage_delay now a o).rejected_count = a.rejected_count + 1)) ∧
    (now - o.interval_begin < storage_delay →
      (processRecord storage_delay now a o).interval_buffer
        = dictInsert (o.symbol, o.interval_begin) o a.interval_buffer ∧
      (processRecord storage_delay now a o).buffered_count = a.buffered_count + 1 ∧
      (processRecord storage_delay now a o).backpressure = a.backpressure) := by
  constructor
  · intro heq
    have hno : ¬ now - o.interval_begin < storage_delay := by omega
    unfold processRecord
    simp only [hno, if_false]
    by_cases hacc : (a.backpressure.should_accept_data o).2 = true
    · simp [hacc, should_accept_total_processed]
    · simp only [Bool.not_eq_true] at hacc
      simp [hacc, should_accept_total_processed]
  · intro hlt
    simp [processRecord, hlt]

/-- Witness for C5: a record exactly at the threshold goes to the mature
path of a fresh loop state, and a younger record is buffered. -/
theorem C5_boundary_routing_witness :
    (processRecord 180 180
        { backpressure := SimpleBackpressureController.init false false 0,
          interval_buffer := [], total_accepted := 0, total_rejected := 0,
          total_buffered := 0, immediate_store := [], buffered_count := 0,
          rejected_count := 0 }
        { symbol := "BTC/USD", open_ := 1, high := 2, low := 1, close := 1, vwap := 1,
          trades := 1, volume := 1, interval_begin := 0, interval := 15 }).buffered_count = 0 ∧
    (processRecord 180 180
        { backpressure := SimpleBackpressureController.init false false 0,
          interval_buffer := [], total_accepted := 0, total_rejected := 0,
          total_buffered := 0, immediate_store := [], buffered_count := 0,
          rejected_count := 0 }
        { symbol := "BTC/USD", open_ := 1, high := 2, low := 1, close := 1, vwap := 1,
          trades := 1, volume := 1, interval_begin := 100, interval := 15 }).buffered_count = 1 := by
  constructor
  · exact ((C5_boundary_routing 180 180 _ _).1 (by decide)).2.1
  · exact ((C5_boundary_routing 180 180 _ _).2 (by decide)).2.1

/-! Concrete sample data shared by several evaluations. -/

/-- Sample candle record constructor. -/
def mkRec (sym : String) (tb : Int) (closePrice : Int) : OHLCData :=
  { symbol := sym, open_ := 1, high := 2, low := 1, close := closePrice, vwap := 1,
    trades := 1, volume := 1, interval_begin := tb, interval := 15 }

/-- An aged sample record (interval_begin 0). -/
def recOld : OHLCData := mkRec "BTC/USD" 0 50000

/-- A freshly initialised backpressure controller without callbacks. -/
def freshController : SimpleBackpressureController :=
  SimpleBackpressureController.init false false 0

/-- A storage state with delay 180 holding exactly one aged buffered entry. -/
def sampleAgedState : IntegratedOHLCStorage :=
  { storage_delay := 180, interval_buffer := [(("BTC/USD", 0), recOld)],
    backpressure := freshController,
    total_accepted := 0, total_rejected := 0, total_buffered := 0, total_flushed := 0 }

/-- The composed bulk writer when the database commit fails: the underlying
OHLCStorage.store_batch catches the database error, rolls back and RETURNS
(0, n, n) instead of raising. -/
def rollbackWriter : StoreFn :=
  fun lst => Except.ok (OHLCStorage.store_batch (fun _ => TransformResult.model) false lst)

/-- The composed bulk writer on a healthy database. -/
def healthyWriter : StoreFn :=
  fun lst => Except.ok (OHLCStorage.store_batch (fun _ => TransformResult.model) true lst)

/-- Claim C1 (evaluation at the failing input): when the bulk write fails by
returning rolled-back counts (success 0, everything failed) - exactly what
OHLCStorage.store_batch produces on a database error - _flush_old_intervals
still deletes every aged entry from the buffer, while reporting the failure
to the backpressure controller and adding nothing to the flushed counter.
The aged entry is lost, contradicting the no-data-loss half of the claim. -/
theorem C1_flush_loses_entries_on_returned_failure :
    rollbackWriter [recOld] = Except.ok (0, 1, 1) ∧
    sampleAgedState.storage_delay ≤ 10000 - recOld.interval_begin ∧
    (sampleAgedState.flush_old_intervals rollbackWriter 10000).1.interval_buffer = [] ∧
    (sampleAgedState.flush_old_intervals rollbackWriter 10000).2 = [false] ∧
    (sampleAgedState.flush_old_intervals rollbackWriter 10000).1.total_flushed = 0 := by
  exact ⟨rfl, by decide, rfl, rfl, rfl⟩

/-- Claim C3 (evaluation at the failing input): force_flush_all on the same
returned-counts failure empties the buffer, reports the failure, and returns
0 flushed - the buffered data is gone although the write failed. -/
theorem C3_force_flush_clears_buffer_on_returned_failure :
    rollbackWriter [recOld] = Except.ok (0, 1, 1) ∧
    (sampleAgedState.force_flush_all rollbackWriter 10000).1.interval_buffer = [] ∧
    (sampleAgedState.force_flush_all rollbackWriter 10000).2.1 = [false] ∧
    (sampleAgedState.force_flush_all rollbackWriter 10000).2.2 = 0 := by
  exact ⟨rfl, rfl, rfl, rfl⟩

/-- Counterexample to claim C8 as stated: a store_batch call with an empty
input returns before flushing, leaving an aged buffered entry unflushed and
making no storage call at all, even though a flush at the same instant
would have removed the entry. -/
theorem C8_empty_batch_skips_flush :
    sampleAgedState.store_batch healthyWriter 10000 []
      = (sampleAgedState, [], (0, 0, 0)) ∧
    sampleAgedState.storage_delay ≤ 10000 - recOld.interval_begin ∧
    dictGet ("BTC/USD", 0) sampleAgedState.interval_buffer = some recOld ∧
    (sampleAgedState.flush_old_intervals healthyWriter 10000).1.interval_buffer = [] := by
  exact ⟨rfl, by decide, rfl, rfl⟩

/-! Structure lemmas for the non-empty store_batch path. -/

theorem isEmpty_false_of_ne_nil {α : Type} {l : List α} (h : l ≠ []) :
    l.isEmpty = false := by
  cases l with
  | nil => exact absurd rfl h
  | cons x xs => rfl

theorem flush_removes_aged_key (s : IntegratedOHLCStorage) (storeFn : StoreFn) (now : Int)
    (k : BufferKey) (v : OHLCData) (res : Nat × Nat × Nat)
    (hget : dictGet k s.interval_buffer = some v)
    (haged : s.storage_delay ≤ now - v.interval_begin)
    (hok : storeFn ((s.agedEntries now).map (fun kv => kv.2)) = Except.ok res) :
    dictGet k (s.flush_old_intervals storeFn now).1.interval_buffer = none := by
  obtain ⟨sc, fc, tt⟩ := res
  have hmem : (k, v) ∈ s.interval_buffer := dictGet_some_mem _ _ _ hget
  have hmema : (k, v) ∈ s.agedEntries now := by
    unfold IntegratedOHLCStorage.agedEntries
    rw [List.mem_filter]
    exact ⟨hmem, by simpa using haged⟩
  have hkmem : k ∈ (s.agedEntries now).map (fun kv => kv.1) :=
    List.mem_map.2 ⟨(k, v), hmema, rfl⟩
  have hne : s.interval_buffer.isEmpty = false :=
    isEmpty_false_of_ne_nil (by intro hb; rw [hb] at hmem; simp at hmem)
  have hfne : ((s.agedEntries now).map (fun kv => kv.2)).isEmpty = false :=
    isEmpty_false_of_ne_nil (by
      intro hb
      have := List.map_eq_nil_iff.1 hb
      rw [this] at hmema
      simp at hmema)
  unfold IntegratedOHLCStorage.flush_old_intervals
  simp only [hne, Bool.false_eq_true, if_false]
  simp only [hfne, Bool.false_eq_true, if_false, hok]
  exact dictGet_foldl_dictErase_mem _ _ _ hkmem

theorem store_batch_final_buffer (s : IntegratedOHLCStorage) (storeFn : StoreFn)
    (now : Int) (l : List OHLCData) (hne : l ≠ []) :
    (s.store_batch storeFn now l).1.interval_buffer
      = (s.batchLoop storeFn now l).interval_buffer := by
  have hle : l.isEmpty = false := isEmpty_false_of_ne_nil hne
  unfold IntegratedOHLCStorage.store_batch
  simp only [hle, Bool.false_eq_true, if_false]
  by_cases him : (s.batchLoop storeFn now l).immediate_store.isEmpty = true
  · simp [him, assembleState]
  · simp only [Bool.not_eq_true] at him
    simp only [him, Bool.false_eq_true, if_false]
    cases hst : storeFn (s.batchLoop storeFn now l).immediate_store with
    | ok val =>
        obtain ⟨sc, fc, tt⟩ := val
        simp [hst, assembleState]
    | error e => simp [hst, assembleState]

theorem store_batch_reports (s : IntegratedOHLCStorage) (storeFn : StoreFn)
    (now : Int) (l : List OHLCData) (hne : l ≠ []) :
    ∃ t, (s.store_batch storeFn now l).2.1 = (s.flush_old_intervals storeFn now).2 ++ t := by
  have hle : l.isEmpty = false := isEmpty_false_of_ne_nil hne
  unfold IntegratedOHLCStorage.store_batch
  simp only [hle, Bool.false_eq_true, if_false]
  by_cases him : (s.batchLoop storeFn now l).immediate_store.isEmpty = true
  · refine ⟨[], ?_⟩
    simp [him]
  · simp only [Bool.not_eq_true] at him
    simp only [him, Bool.false_eq_true, if_false]
    cases hst : storeFn (s.batchLoop storeFn now l).immediate_store with
    | ok val =>
        obtain ⟨sc, fc, tt⟩ := val
        exact ⟨[fc == 0], by simp [hst]⟩
    | error e => exact ⟨[false], by simp [hst]⟩

theorem batchLoop_buffer_absent (s : IntegratedOHLCStorage) (storeFn : StoreFn)
    (now : Int) (l : List OHLCData) (k : BufferKey)
    (habs : dictGet k (s.flush_old_intervals storeFn now).1.interval_buffer = none)
    (hnorec : ∀ o ∈ l, (o.symbol, o.interval_begin) = k →
      ¬ now - o.interval_begin < s.storage_delay) :
    dictGet k (s.batchLoop storeFn now l).interval_buffer = none := by
  unfold IntegratedOHLCStorage.batchLoop
  dsimp only
  refine loop_absent _ now l _ k habs ?_
  intro o ho hk
  rw [flush_storage_delay]
  exact hnorec o ho hk

/-- Claim C8 (amended to non-empty inputs): every store_batch call on a
non-empty batch performs the flush of aged buffered entries first: the
storage results reported to the backpressure controller start with those of
the flush, and an aged entry is gone from the buffer afterwards whenever
the flush write returns (the removal path of the flush) and no recent
record of the new batch re-creates its key. -/
theorem C8_flush_before_processing (s : IntegratedOHLCStorage) (storeFn : StoreFn)
    (now : Int) (l : List OHLCData) (hne : l ≠ []) :
    (∃ t, (s.store_batch storeFn now l).2.1 = (s.flush_old_intervals storeFn now).2 ++ t) ∧
    (∀ (k : BufferKey) (v : OHLCData) (res : Nat × Nat × Nat),
      dictGet k s.interval_buffer = some v →
      s.storage_delay ≤ now - v.interval_begin →
      storeFn ((s.agedEntries now).map (fun kv => kv.2)) = Except.ok res →
      (∀ o ∈ l, (o.symbol, o.interval_begin) = k →
        ¬ now - o.interval_begin < s.storage_delay) →
      dictGet k (s.store_batch storeFn now l).1.interval_buffer = none) := by
  constructor
  · exact store_batch_reports s storeFn now l hne
  · intro k v res hget haged hok hnorec
    rw [store_batch_final_buffer s storeFn now l hne]
    exact batchLoop_buffer_absent s storeFn now l k
      (flush_removes_aged_key s storeFn now k v res hget haged hok) hnorec

/-- Witness for C8 at a concrete call: one aged buffered entry, a non-empty
batch holding one unrelated mature record, a fully succeeding writer; the
report trace is the flush report followed by the immediate-store report,
and the aged key is gone afterwards. -/
theorem C8_flush_before_processing_witness :
    (sampleAgedState.store_batch healthyWriter 10000 [mkRec "ETH/USD" 5000 3000]).2.1
      = [true, true] ∧
    dictGet ("BTC/USD", 0)
      (sampleAgedState.store_batch healthyWriter 10000
        [mkRec "ETH/USD" 5000 3000]).1.interval_buffer = none := by
  have h := C8_flush_before_processing sampleAgedState healthyWriter 10000
    [mkRec "ETH/USD" 5000 3000] (by simp)
  constructor
  · rfl
  · refine h.2 ("BTC/USD", 0) recOld (1, 0, 1) rfl (by decide) rfl ?_
    intro o ho hk
    simp only [List.mem_singleton] at ho
    subst ho
    simp [mkRec] at hk

/-! Lemmas for the latest-wins and poisoned-batch claims. -/

theorem flush_countKey_le (s : IntegratedOHLCStorage) (storeFn : StoreFn) (now : Int)
    (k : BufferKey) :
    countKey k (s.flush_old_intervals storeFn now).1.interval_buffer
      ≤ countKey k s.interval_buffer := by
  unfold IntegratedOHLCStorage.flush_old_intervals
  split
  · exact le_refl _
  · dsimp only
    split
    · exact le_refl _
    · split
      · exact countKey_foldl_dictErase_le _ _ _
      · exact le_refl _

theorem bufFold_other_key (sym : String) (tb : Int) (l : List OHLCData) :
    ∀ (b : Buffer) (k : BufferKey), k ≠ (sym, tb) →
      (∀ o ∈ l, o.symbol = sym ∧ o.interval_begin = tb) →
      dictGet k (l.foldl (fun b o => dictInsert (o.symbol, o.interval_begin) o b) b)
        = dictGet k b := by
  induction l with
  | nil => intro b k _ _; rfl
  | cons o rest ih =>
      intro b k hk hid
      obtain ⟨h1, h2⟩ := hid o (List.mem_cons_self o rest)
      simp only [List.foldl_cons]
      rw [ih _ k hk (fun x hx => hid x (List.mem_cons_of_mem o hx))]
      rw [h1, h2]
      exact dictGet_dictInsert_ne k (sym, tb) o b hk

theorem bufFold_countKey_le_one (sym : String) (tb : Int) (l : List OHLCData) :
    ∀ b : Buffer, (∀ o ∈ l, o.symbol = sym ∧ o.interval_begin = tb) →
      countKey (sym, tb) b ≤ 1 →
      countKey (sym, tb)
        (l.foldl (fun b o => dictInsert (o.symbol, o.interval_begin) o b) b) ≤ 1 := by
  induction l with
  | nil => intro b _ h; simpa using h
  | cons o rest ih =>
      intro b hid h
      obtain ⟨h1, h2⟩ := hid o (List.mem_cons_self o rest)
      simp only [List.foldl_cons]
      refine ih _ (fun x hx => hid x (List.mem_cons_of_mem o hx)) ?_
      rw [h1, h2, countKey_dictInsert_self]
      omega

theorem batchLoop_all_recent_buffer (s : IntegratedOHLCStorage) (storeFn : StoreFn)
    (now : Int) (l : List OHLCData)
    (hrec : ∀ o ∈ l, now - o.interval_begin < s.storage_delay) :
    (s.batchLoop storeFn now l).interval_buffer
      = l.foldl (fun b o => dictInsert (o.symbol, o.interval_begin) o b)
          (s.flush_old_intervals storeFn now).1.interval_buffer := by
  unfold IntegratedOHLCStorage.batchLoop
  dsimp only
  have hrec1 : ∀ o ∈ l,
      now - o.interval_begin < (s.flush_old_intervals storeFn now).1.storage_delay := by
    intro o ho
    rw [flush_storage_delay]
    exact hrec o ho
  exact (loop_all_recent _ now l _ hrec1).2.2.2.2

theorem batchLoop_buffered_count (s : IntegratedOHLCStorage) (storeFn : StoreFn)
    (now : Int) (l : List OHLCData) :
    (s.batchLoop storeFn now l).buffered_count = countRecent s.storage_delay now l := by
  unfold IntegratedOHLCStorage.batchLoop
  dsimp only
  rw [loop_buffered_count, flush_storage_delay]
  simp [initialLoopState]

theorem batchLoop_recent_present (s : IntegratedOHLCStorage) (storeFn : StoreFn)
    (now : Int) (l : List OHLCData) (o : OHLCData) (ho : o ∈ l)
    (hr : now - o.interval_begin < s.storage_delay) :
    dictGet (o.symbol, o.interval_begin)
      (s.batchLoop storeFn now l).interval_buffer ≠ none := by
  unfold IntegratedOHLCStorage.batchLoop
  dsimp only
  refine loop_recent_present _ now l _ o ho ?_
  rw [flush_storage_delay]
  exact hr

/-- Claim C4: for a non-empty sequence of records all sharing the identity
(sym, tb) and all recent at time now, a store_batch call leaves the buffer
holding exactly the last-submitted record at that key, at most one entry for
that identity (given the at-most-one invariant beforehand), and entries at
every other key exactly as the initial flush left them - so records of other
symbols are never changed by these updates. -/
theorem C4_latest_wins (s : IntegratedOHLCStorage) (storeFn : StoreFn) (now : Int)
    (pre : List OHLCData) (olast : OHLCData) (sym : String) (tb : Int)
    (hid : ∀ o ∈ pre ++ [olast], o.symbol = sym ∧ o.interval_begin = tb)
    (hrecent : now - tb < s.storage_delay)
    (hone : countKey (sym, tb) s.interval_buffer ≤ 1) :
    dictGet (sym, tb)
      (s.store_batch storeFn now (pre ++ [olast])).1.interval_buffer = some olast ∧
    countKey (sym, tb)
      (s.store_batch storeFn now (pre ++ [olast])).1.interval_buffer ≤ 1 ∧
    (∀ k : BufferKey, k ≠ (sym, tb) →
      dictGet k (s.store_batch storeFn now (pre ++ [olast])).1.interval_buffer
        = dictGet k (s.flush_old_intervals storeFn now).1.interval_buffer) := by
  have hne : pre ++ [olast] ≠ [] := by simp
  have hrec : ∀ o ∈ pre ++ [olast], now - o.interval_begin < s.storage_delay := by
    intro o ho
    rw [(hid o ho).2]
    exact hrecent
  have hbuf := batchLoop_all_recent_buffer s storeFn now (pre ++ [olast]) hrec
  have hlast := hid olast (by simp)
  refine ⟨?_, ?_, ?_⟩
  · rw [store_batch_final_buffer s storeFn now _ hne, hbuf, List.foldl_append]
    simp only [List.foldl_cons, List.foldl_nil]
    rw [hlast.1, hlast.2]
    exact dictGet_dictInsert_self _ _ _
  · rw [store_batch_final_buffer s storeFn now _ hne, hbuf]
    exact bufFold_countKey_le_one sym tb _ _ hid
      (le_trans (flush_countKey_le s storeFn now _) hone)
  · intro k hk
    rw [store_batch_final_buffer s storeFn now _ hne, hbuf]
    exact bufFold_other_key sym tb _ _ k hk hid

/-- A storage state with delay 180 and an empty buffer. -/
def sampleEmptyState : IntegratedOHLCStorage :=
  { storage_delay := 180, interval_buffer := [], backpressure := freshController,
    total_accepted := 0, total_rejected := 0, total_buffered := 0, total_flushed := 0 }

/-- A bulk writer whose call raises (infrastructure failure). -/
def failRaiseWriter : StoreFn := fun _ => Except.error ()

/-- Witness for C4: two updates of the same identity while recent; the
buffer ends with the second value only, one entry, and an unrelated key
stays empty. -/
theorem C4_latest_wins_witness :
    dictGet ("BTC/USD", 100)
      (sampleEmptyState.store_batch healthyWriter 150
        ([mkRec "BTC/USD" 100 1] ++ [mkRec "BTC/USD" 100 2])).1.interval_buffer
      = some (mkRec "BTC/USD" 100 2) ∧
    countKey ("BTC/USD", 100)
      (sampleEmptyState.store_batch healthyWriter 150
        ([mkRec "BTC/USD" 100 1] ++ [mkRec "BTC/USD" 100 2])).1.interval_buffer ≤ 1 := by
  have h := C4_latest_wins sampleEmptyState healthyWriter 150
    [mkRec "BTC/USD" 100 1] (mkRec "BTC/USD" 100 2) "BTC/USD" 100
    (by decide) (by decide) (by decide)
  exact ⟨h.1, h.2.1⟩

/-- Claim C2: on a non-empty batch whose immediate-storage write raises, the
returned processed count is 0, the returned rejected count is the loop
rejections plus the whole immediate-store list plus every record buffered in
this call, and those buffered records are nevertheless present in the
in-memory buffer afterwards. -/
theorem C2_storage_failure_poisons_batch (s : IntegratedOHLCStorage) (storeFn : StoreFn)
    (now : Int) (l : List OHLCData) (hne : l ≠ [])
    (himm : (s.batchLoop storeFn now l).immediate_store ≠ [])
    (hfail : storeFn (s.batchLoop storeFn now l).immediate_store = Except.error ()) :
    (s.store_batch storeFn now l).2.2.1 = 0 ∧
    (s.store_batch storeFn now l).2.2.2.1
      = (s.batchLoop storeFn now l).rejected_count
        + (s.batchLoop storeFn now l).immediate_store.length
        + countRecent s.storage_delay now l ∧
    (∀ o ∈ l, now - o.interval_begin < s.storage_delay →
      dictGet (o.symbol, o.interval_begin)
        (s.store_batch storeFn now l).1.interval_buffer ≠ none) := by
  have hle : l.isEmpty = false := isEmpty_false_of_ne_nil hne
  have himme : (s.batchLoop storeFn now l).immediate_store.isEmpty = false :=
    isEmpty_false_of_ne_nil himm
  refine ⟨?_, ?_, ?_⟩
  · unfold IntegratedOHLCStorage.store_batch
    simp only [hle, Bool.false_eq_true, if_false]
    simp only [himme, Bool.false_eq_true, if_false, hfail]
  · unfold IntegratedOHLCStorage.store_batch
    simp only [hle, Bool.false_eq_true, if_false]
    simp only [himme, Bool.false_eq_true, if_false, hfail]
    rw [batchLoop_buffered_count]
  · intro o ho hr
    rw [store_batch_final_buffer s storeFn now l hne]
    exact batchLoop_recent_present s storeFn now l o ho hr

/-- Witness for C2: one recent and one mature record with a raising writer:
processed 0, rejected 2 (the mature record plus the buffered one), and the
recent record is in the buffer. -/
theorem C2_storage_failure_poisons_batch_witness :
    (sampleEmptyState.store_batch failRaiseWriter 10000
        [mkRec "ETH/USD" 9990 1, mkRec "BTC/USD" 0 1]).2.2.1 = 0 ∧
    (sampleEmptyState.store_batch failRaiseWriter 10000
        [mkRec "ETH/USD" 9990 1, mkRec "BTC/USD" 0 1]).2.2.2.1 = 2 ∧
    dictGet ("ETH/USD", 9990)
      (sampleEmptyState.store_batch failRaiseWriter 10000
        [mkRec "ETH/USD" 9990 1, mkRec "BTC/USD" 0 1]).1.interval_buffer ≠ none := by
  have h := C2_storage_failure_poisons_batch sampleEmptyState failRaiseWriter 10000
    [mkRec "ETH/USD" 9990 1, mkRec "BTC/USD" 0 1] (by simp) (by decide) rfl
  refine ⟨h.1, ?_, h.2.2 (mkRec "ETH/USD" 9990 1) (by decide) (by decide)⟩
  rw [h.2.1]
  decide

/-- Claim C10: store_single returns true exactly when the wrapped
store_batch reports a positive processed count; in particular a single
recent record on an empty buffer yields true with no storage result ever
reported (no write was attempted), the record sitting only in the in-memory
buffer - truth of the return does not mean the record reached the store. -/
theorem C10_store_single_buffered_true (s : IntegratedOHLCStorage) (storeFn : StoreFn)
    (now : Int) (o : OHLCData) :
    ((s.store_single storeFn now o).2.2
      = decide (0 < (s.store_batch storeFn now [o]).2.2.1)) ∧
    (s.interval_buffer = [] → now - o.interval_begin < s.storage_delay →
      (s.store_single storeFn now o).2.2 = true ∧
      (s.store_single storeFn now o).2.1 = [] ∧
      dictGet (o.symbol, o.interval_begin)
        (s.store_single storeFn now o).1.interval_buffer = some o) := by
  constructor
  · rfl
  · intro hbuf hrec
    have hfl : s.flush_old_intervals storeFn now = (s, []) :=
      flush_empty_buffer s storeFn now hbuf
    unfold IntegratedOHLCStorage.store_single IntegratedOHLCStorage.store_batch
      IntegratedOHLCStorage.batchLoop
    simp only [hfl]
    simp [processRecord, hrec, initialLoopState, assembleState, hbuf,
          dictGet_dictInsert_self]

/-- Witness for C10: a recent record, an empty buffer and a writer that
would raise if it were ever called: store_single still returns true, reports
nothing to the backpressure controller, and the record is only buffered. -/
theorem C10_store_single_buffered_true_witness :
    (sampleEmptyState.store_single failRaiseWriter 10000 (mkRec "BTC/USD" 9990 1)).2.2
      = true ∧
    (sampleEmptyState.store_single failRaiseWriter 10000 (mkRec "BTC/USD" 9990 1)).2.1
      = [] ∧
    dictGet ("BTC/USD", 9990)
      (sampleEmptyState.store_single failRaiseWriter 10000
        (mkRec "BTC/USD" 9990 1)).1.interval_buffer = some (mkRec "BTC/USD" 9990 1) := by
  exact (C10_store_single_buffered_true sampleEmptyState failRaiseWriter 10000
    (mkRec "BTC/USD" 9990 1)).2 rfl (by decide)
